import Mathlib

/-!
Verification of the itee-hub repository (dedup / delivery core).

Shallow embedding of `src/itee_hub/db_handler.py`, `src/itee_hub/utils.py`
and `src/itee_hub/telegram_bot.py`.  The SQLite tables become Lean lists of
records (rows in insertion order, as SQLite returns them for queries without
an ORDER BY); SQL queries become list filters; Python regular-expression
calls become explicit character-list scanners with the same leftmost-match
semantics; the filesystem and the network are modelled as explicit
parameters (`fs : String → Bool` for path existence, fetched header values
as arguments).
-/

/-- A row of the `files` table (`db_handler.py`, `init_db`):
`link TEXT, last_modified TEXT, md5 TEXT, year_month TEXT`.
`add_file` always stores an integer timestamp for `last_modified`
(`utils.py` line 237 `int(last_modified.timestamp())`), so it is an `Int`
here. -/
structure FileRecord where
  link : String
  last_modified : Int
  md5 : String
  year_month : String
deriving Repr, DecidableEq

/-- A row of the `telegram_msgs` table (`telegram_bot.py`, `init_db`):
`chat_id TEXT, md5 TEXT`. -/
structure MsgRecord where
  chat_id : String
  md5 : String
deriving Repr, DecidableEq

/-- The two persisted tables, rows in insertion order. -/
structure Store where
  files : List FileRecord
  msgs : List MsgRecord
deriving Repr, DecidableEq

/-- SQL equality `:md5 == r.md5` where the bound parameter may be NULL
(Python `None`).  In SQLite `NULL == x` is NULL, which is not satisfied by
a WHERE clause, so a NULL parameter matches no row. -/
def sqlEqOpt (v : Option String) (s : String) : Bool :=
  match v with
  | none => false
  | some x => x == s

/-- `DBHandler.add_file` (db_handler.py lines 44-61): INSERT appends a row. -/
def add_file (files : List FileRecord) (link : String) (last_modified : Int)
    (year_month : String) (md5 : String) : List FileRecord :=
  files ++ [⟨link, last_modified, md5, year_month⟩]

/-- `DBHandler.get_file` (db_handler.py lines 63-75):
`SELECT * FROM files WHERE (link == :link) AND (md5 == :md5 OR
last_modified == :last_modified)`, then `fetchall`; the function returns
the row list when it is non-empty and falls off the end (Python `None`)
otherwise. -/
def get_file (files : List FileRecord) (link : String) (last_modified : Int)
    (md5 : Option String) : Option (List FileRecord) :=
  let result := files.filter fun r =>
    r.link == link && (sqlEqOpt md5 r.md5 || r.last_modified == last_modified)
  if result.isEmpty then none else some result

/-- A Python value as far as `is_file_changed` can observe it: `get_file`
returns either a list or `None`, and the function compares that value with
`is True`, an identity test against the boolean singleton `True`. -/
inductive PyVal where
  | pynone
  | pybool (b : Bool)
  | pylist (l : List FileRecord)
deriving Repr, DecidableEq

/-- The Python value returned by `DBHandler.get_file`. -/
def getFilePy (files : List FileRecord) (link : String) (last_modified : Int)
    (md5 : Option String) : PyVal :=
  match get_file files link last_modified md5 with
  | none => .pynone
  | some l => .pylist l

/-- Python `x is True`: identity with the `True` object, satisfied only by
the boolean `True` itself, never by a list or by `None`. -/
def pyIsTrue (v : PyVal) : Bool :=
  match v with
  | .pybool true => true
  | _ => false

/-- `is_file_changed` (utils.py lines 161-181), after the HEAD request has
succeeded and yielded the `last-modified` timestamp (taken here as the
argument `last_modified`): `return db.get_file(link, last_modified, "") is
True`. -/
def is_file_changed (files : List FileRecord) (link : String)
    (last_modified : Int) : Bool :=
  pyIsTrue (getFilePy files link last_modified (some ""))

/-- C1: for every link whose metadata-only HEAD fetch succeeds and yields a
last-modified timestamp, `is_file_changed` returns `False`: `get_file`
returns a non-empty list or `None`, never the boolean `True`, so the
identity comparison `db.get_file(link, last_modified, "") is True` never
holds, regardless of what records are stored. -/
theorem c1_is_file_changed_always_false
    (files : List FileRecord) (link : String) (last_modified : Int) :
    is_file_changed files link last_modified = false := by
  unfold is_file_changed getFilePy get_file
  by_cases h :
      (files.filter fun r =>
        r.link == link &&
          (sqlEqOpt (some "") r.md5 || r.last_modified == last_modified)).isEmpty
  · simp [h, pyIsTrue]
  · simp [h, pyIsTrue]

/-- C4: `get_file(link, last_modified, content_hash)` with an actual hash
argument returns exactly the stored records whose link matches and whose
hash or timestamp matches, keeping store order (a sublist of the table),
and returns `None` rather than an empty list when nothing matches. -/
theorem c4_get_file_characterisation
    (files : List FileRecord) (link : String) (lm : Int) (h : String) :
    (get_file files link lm (some h) = none ↔
      ∀ r ∈ files, ¬(r.link = link ∧ (r.md5 = h ∨ r.last_modified = lm))) ∧
    (∀ l, get_file files link lm (some h) = some l →
      l ≠ [] ∧ l.Sublist files ∧
        ∀ r, r ∈ l ↔ r ∈ files ∧ r.link = link ∧ (r.md5 = h ∨ r.last_modified = lm)) := by
  unfold get_file
  set res := files.filter fun r =>
    r.link == link && (sqlEqOpt (some h) r.md5 || r.last_modified == lm) with hres
  constructor
  · constructor
    · intro hnone r hr hcontra
      by_cases hempty : res.isEmpty
      · rw [List.isEmpty_iff] at hempty
        have : r ∈ res := by
          rw [hres, List.mem_filter]
          refine ⟨hr, ?_⟩
          simp [sqlEqOpt, hcontra.1]
          rcases hcontra.2 with h2 | h2
          · exact Or.inl h2.symm
          · exact Or.inr h2
        rw [hempty] at this
        exact absurd this (List.not_mem_nil r)
      · simp [hempty] at hnone
    · intro hall
      have hempty : res.isEmpty := by
        rw [List.isEmpty_iff, List.eq_nil_iff_forall_not_mem]
        intro r hrmem
        rw [hres, List.mem_filter] at hrmem
        obtain ⟨hrf, hcond⟩ := hrmem
        apply hall r hrf
        simp [sqlEqOpt] at hcond
        refine ⟨hcond.1, ?_⟩
        rcases hcond.2 with h2 | h2
        · exact Or.inl h2.symm
        · exact Or.inr h2
      simp [hempty]
  · intro l hl
    by_cases hempty : res.isEmpty
    · simp [hempty] at hl
    · simp [hempty] at hl
      subst hl
      refine ⟨fun hnil => hempty (hnil ▸ rfl), List.filter_sublist files, ?_⟩
      intro r
      rw [hres, List.mem_filter]
      constructor
      · rintro ⟨hrf, hcond⟩
        simp [sqlEqOpt] at hcond
        refine ⟨hrf, hcond.1, ?_⟩
        rcases hcond.2 with h2 | h2
        · exact Or.inl h2.symm
        · exact Or.inr h2
      · rintro ⟨hrf, hlink, hdisj⟩
        refine ⟨hrf, ?_⟩
        simp [sqlEqOpt, hlink]
        rcases hdisj with h2 | h2
        · exact Or.inl h2.symm
        · exact Or.inr h2

/-- Witness for C4 at a concrete store: one matching record. -/
theorem c4_get_file_characterisation_witness :
    get_file [⟨"a", 5, "h1", "ym"⟩] "a" 5 (some "h1") = some [⟨"a", 5, "h1", "ym"⟩] ∧
    ([⟨"a", 5, "h1", "ym"⟩] : List FileRecord) ≠ [] := by
  have := (c4_get_file_characterisation [⟨"a", 5, "h1", "ym"⟩] "a" 5 "h1").2
    [⟨"a", 5, "h1", "ym"⟩] (by decide)
  exact ⟨by decide, this.1⟩

/-- C9: when `get_file` is called with the hash argument omitted (Python
`None`, bound as SQL NULL), the hash disjunct of the WHERE clause matches
no row, so a record is returned iff its link and its last_modified both
match exactly. -/
theorem c9_get_file_null_hash
    (files : List FileRecord) (link : String) (lm : Int) (r : FileRecord) :
    (∃ l, get_file files link lm none = some l ∧ r ∈ l) ↔
      r ∈ files ∧ r.link = link ∧ r.last_modified = lm := by
  unfold get_file
  set res := files.filter fun s =>
    s.link == link && (sqlEqOpt none s.md5 || s.last_modified == lm) with hres
  constructor
  · rintro ⟨l, hl, hrl⟩
    by_cases hempty : res.isEmpty
    · simp [hempty] at hl
    · simp [hempty] at hl
      subst hl
      rw [hres, List.mem_filter] at hrl
      obtain ⟨hrf, hcond⟩ := hrl
      simp [sqlEqOpt] at hcond
      exact ⟨hrf, hcond⟩
  · rintro ⟨hrf, hlink, hlm⟩
    have hrmem : r ∈ res := by
      rw [hres, List.mem_filter]
      exact ⟨hrf, by simp [sqlEqOpt, hlink, hlm]⟩
    have hempty : ¬res.isEmpty := by
      rw [List.isEmpty_iff]
      intro hnil
      rw [hnil] at hrmem
      exact absurd hrmem (List.not_mem_nil r)
    exact ⟨res, by simp [hempty], hrmem⟩

/-! ## Year extraction: `get_year_from_txt` (utils.py lines 15-41)

The function runs two regular expressions:
`re.findall(r"(\d{2})?(\d{4})", text)` and
`re.search(r"(\d{4}|(?:(IP|FE|AP)\d{4}))", text, re.IGNORECASE)`,
then returns the first group of length 4 among the tuples produced by
`findall`, falling back to `pattern_1.group(1)`, and finally to `None`.
The matchers below reproduce the regex engine behaviour at the character
level: a scan tries each start position from the left; the optional group
`(\d{2})?` is greedy, so a 6-digit run at the position captures its first
two digits in group 1 and the next four in group 2, while a shorter run
captures four digits in group 2 with group 1 empty; `findall` resumes after
the end of each match (non-overlapping matches). -/

/-- The first `n` characters of `l` exist and are ASCII digits. -/
def digitsAt (n : Nat) (l : List Char) : Bool :=
  n ≤ l.length && (l.take n).all Char.isDigit

/-- Worker for `findallYear`: structural recursion on a fuel bound (the
scanner advances by at least one character per step, so `l.length` fuel
suffices; see `findallYearAux_congr`). -/
def findallYearAux (fuel : Nat) (l : List Char) : List (String × String) :=
  match fuel, l with
  | 0, _ => []
  | _ + 1, [] => []
  | fuel + 1, c :: rest =>
    if digitsAt 6 (c :: rest) then
      (String.mk ((c :: rest).take 2), String.mk (((c :: rest).drop 2).take 4)) ::
        findallYearAux fuel ((c :: rest).drop 6)
    else if digitsAt 4 (c :: rest) then
      ("", String.mk ((c :: rest).take 4)) :: findallYearAux fuel ((c :: rest).drop 4)
    else findallYearAux fuel rest

/-- All matches of `(\d{2})?(\d{4})`, scanning left to right without
overlap, as (group 1, group 2) pairs; a missing optional group is the
empty string, exactly as `re.findall` reports it. -/
def findallYear (l : List Char) : List (String × String) :=
  findallYearAux l.length l

/-- The fuel bound is irrelevant once it covers the list length. -/
theorem findallYearAux_congr :
    ∀ (fuel fuel2 : Nat) (l : List Char), l.length ≤ fuel → l.length ≤ fuel2 →
      findallYearAux fuel l = findallYearAux fuel2 l := by
  intro fuel
  induction fuel with
  | zero =>
    intro fuel2 l hl _
    have : l = [] := List.eq_nil_of_length_eq_zero (Nat.le_zero.mp hl)
    subst this
    cases fuel2 <;> rfl
  | succ n ih =>
    intro fuel2 l hl hl2
    match l with
    | [] => cases fuel2 <;> rfl
    | c :: rest =>
      match fuel2, hl2 with
      | f2 + 1, hl2 =>
        show findallYearAux (n + 1) (c :: rest) = findallYearAux (f2 + 1) (c :: rest)
        have hn : rest.length ≤ n := by simpa using hl
        have hf : rest.length ≤ f2 := by simpa using hl2
        simp only [findallYearAux]
        by_cases h6 : digitsAt 6 (c :: rest)
        · rw [if_pos h6, if_pos h6]
          congr 1
          exact ih f2 _ (by simp [List.length_drop]; omega) (by simp [List.length_drop]; omega)
        · rw [if_neg h6, if_neg h6]
          by_cases h4 : digitsAt 4 (c :: rest)
          · rw [if_pos h4, if_pos h4]
            congr 1
            exact ih f2 _ (by simp [List.length_drop]; omega) (by simp [List.length_drop]; omega)
          · rw [if_neg h4, if_neg h4]
            exact ih f2 rest hn hf

/-- One-step unfolding of `findallYear` on a cons cell. -/
theorem findallYear_cons (c : Char) (rest : List Char) :
    findallYear (c :: rest) =
      if digitsAt 6 (c :: rest) then
        (String.mk ((c :: rest).take 2), String.mk (((c :: rest).drop 2).take 4)) ::
          findallYear ((c :: rest).drop 6)
      else if digitsAt 4 (c :: rest) then
        ("", String.mk ((c :: rest).take 4)) :: findallYear ((c :: rest).drop 4)
      else findallYear rest := by
  show findallYearAux (rest.length + 1) (c :: rest) = _
  simp only [findallYearAux]
  by_cases h6 : digitsAt 6 (c :: rest)
  · rw [if_pos h6, if_pos h6]
    congr 1
    exact findallYearAux_congr rest.length ((c :: rest).drop 6).length ((c :: rest).drop 6)
      (by simp [List.length_drop]) le_rfl
  · rw [if_neg h6, if_neg h6]
    by_cases h4 : digitsAt 4 (c :: rest)
    · rw [if_pos h4, if_pos h4]
      congr 1
      exact findallYearAux_congr rest.length ((c :: rest).drop 4).length ((c :: rest).drop 4)
        (by simp [List.length_drop]) le_rfl
    · rw [if_neg h4, if_neg h4]
      rfl

/-- The double loop of utils.py lines 33-36: walk the match tuples in
order, and inside each tuple the groups in order, returning the first
group whose length is 4. -/
def firstLen4 : List (String × String) → Option String
  | [] => none
  | (g1, g2) :: rest =>
    if g1.length == 4 then some g1
    else if g2.length == 4 then some g2
    else firstLen4 rest

/-- Case-insensitive match of `IP|FE|AP` at the head of `l` (the second
regex carries `re.IGNORECASE`). -/
def examCodeAtCI (l : List Char) : Bool :=
  match l with
  | a :: b :: _ =>
    (a.toUpper == 'I' && b.toUpper == 'P') ||
    (a.toUpper == 'F' && b.toUpper == 'E') ||
    (a.toUpper == 'A' && b.toUpper == 'P')
  | _ => false

/-- Match of `(\d{4}|(?:(IP|FE|AP)\d{4}))` anchored at the head of `l`,
returning group 1 (alternatives tried left to right). -/
def matchPat1At (l : List Char) : Option String :=
  if digitsAt 4 l then some (String.mk (l.take 4))
  else if examCodeAtCI l && digitsAt 4 (l.drop 2) then some (String.mk (l.take 6))
  else none

/-- Leftmost-match search: try `f` at every start position from the left.
(The patterns modelled here are never nullable, so the position at the end
of the text can be skipped.) -/
def reSearch {α : Type} (f : List Char → Option α) : List Char → Option α
  | [] => none
  | c :: rest =>
    match f (c :: rest) with
    | some r => some r
    | none => reSearch f rest

/-- `get_year_from_txt` (utils.py lines 15-41): first group of length 4
from the `findall` tuples, else `pattern_1.group(1)`, else `None`.
(`firstLen4 [] = none` also covers the Python guard `if patter_0:`.) -/
def get_year_from_txt (text : String) : Option String :=
  match firstLen4 (findallYear text.data) with
  | some y => some y
  | none =>
    match reSearch matchPat1At text.data with
    | some y => some y
    | none => none

/-- C7: the three documented examples of year extraction. -/
theorem c7_extract_year_examples :
    get_year_from_txt "2024 April Exam" = some "2024" ∧
    get_year_from_txt "2019S_FE.pdf" = some "2019" ∧
    get_year_from_txt "IPApril2012.zip" = some "2012" := by
  refine ⟨?_, ?_, ?_⟩ <;> decide

/-- Some suffix of `l` (equivalently, some start position) begins with four
digits: this is what "contains a run of 4 consecutive digits" means. -/
def hasRun4 : List Char → Bool
  | [] => false
  | c :: rest => digitsAt 4 (c :: rest) || hasRun4 rest

/-- A 6-digit match implies a 4-digit match at the same position. -/
theorem digitsAt4_of_digitsAt6 (l : List Char) (h : digitsAt 6 l = true) :
    digitsAt 4 l = true := by
  simp only [digitsAt, Bool.and_eq_true, decide_eq_true_eq, List.all_eq_true] at h ⊢
  obtain ⟨hlen, hall⟩ := h
  refine ⟨by omega, fun c hc => ?_⟩
  apply hall
  have htt : l.take 4 = (l.take 6).take 4 := by
    rw [List.take_take]
    norm_num
  rw [htt] at hc
  exact List.take_subset 4 (l.take 6) hc

/-- If `l` has no 4-digit run, then no suffix of `l` starts with 4 digits. -/
theorem no_digitsAt4_drop (l : List Char) (h : hasRun4 l = false) :
    ∀ n, digitsAt 4 (l.drop n) = false := by
  induction l with
  | nil =>
    intro n
    simp [digitsAt]
  | cons c rest ih =>
    simp only [hasRun4, Bool.or_eq_false_iff] at h
    intro n
    match n with
    | 0 => exact h.1
    | m + 1 => exact ih h.2 m

/-- Conversely, a 4-digit run at any position witnesses `hasRun4`. -/
theorem hasRun4_of_digitsAt4_drop (l : List Char) (n : Nat)
    (h : digitsAt 4 (l.drop n) = true) : hasRun4 l = true := by
  by_contra hcon
  have hfalse := no_digitsAt4_drop l (Bool.eq_false_iff.mpr hcon) n
  rw [h] at hfalse
  exact Bool.true_eq_false.mp hfalse

/-- With no 4-digit run the `findall` scanner produces no match. -/
theorem findallYearAux_nil_of_no_run :
    ∀ (fuel : Nat) (l : List Char), hasRun4 l = false → findallYearAux fuel l = [] := by
  intro fuel
  induction fuel with
  | zero => intro l _; rfl
  | succ n ih =>
    intro l h
    match l with
    | [] => rfl
    | c :: rest =>
      simp only [hasRun4, Bool.or_eq_false_iff] at h
      have h6 : digitsAt 6 (c :: rest) = false := by
        by_contra hcon
        rw [Bool.not_eq_false] at hcon
        have h4 := digitsAt4_of_digitsAt6 (c :: rest) hcon
        rw [h.1] at h4
        exact Bool.false_ne_true h4
      simp only [findallYearAux]
      rw [if_neg (by simp [h6]), if_neg (by simp [h.1])]
      exact ih rest h.2

/-- With no 4-digit run the fallback pattern cannot match either (its two
alternatives both demand 4 consecutive digits). -/
theorem reSearch_pat1_none_of_no_run (l : List Char) (h : hasRun4 l = false) :
    reSearch matchPat1At l = none := by
  induction l with
  | nil => rfl
  | cons c rest ih =>
    simp only [hasRun4, Bool.or_eq_false_iff] at h
    have hdrop : digitsAt 4 ((c :: rest).drop 2) = false :=
      no_digitsAt4_drop (c :: rest) (by simp [hasRun4, h.1, h.2]) 2
    have hm : matchPat1At (c :: rest) = none := by
      unfold matchPat1At
      rw [if_neg (by simp [h.1]), if_neg ?_]
      simp only [Bool.and_eq_true, not_and]
      intro _ hd
      rw [hdrop] at hd
      exact Bool.false_ne_true hd
    simp only [reSearch, hm]
    exact ih h.2

/-- Shape of every `findall` tuple: group 1 never has length 4 (it is empty
or two digits) and group 2 is always four digit characters. -/
theorem findallYearAux_pairs :
    ∀ (fuel : Nat) (l : List Char) (p : String × String), p ∈ findallYearAux fuel l →
      p.1.length ≠ 4 ∧ p.2.length = 4 ∧ p.2.data.all Char.isDigit = true := by
  intro fuel
  induction fuel with
  | zero => intro l p hp; exact absurd hp (List.not_mem_nil p)
  | succ n ih =>
    intro l p hp
    match l with
    | [] => exact absurd hp (List.not_mem_nil p)
    | c :: rest =>
      simp only [findallYearAux] at hp
      by_cases h6 : digitsAt 6 (c :: rest)
      · rw [if_pos h6] at hp
        rcases List.mem_cons.mp hp with hhead | htail
        · subst hhead
          simp only [digitsAt, Bool.and_eq_true, decide_eq_true_eq, List.all_eq_true] at h6
          obtain ⟨hlen, hall⟩ := h6
          refine ⟨?_, ?_, ?_⟩
          · show (String.mk ((c :: rest).take 2)).length ≠ 4
            simp only [String.length_mk, List.length_take]
            omega
          · show (String.mk (((c :: rest).drop 2).take 4)).length = 4
            simp only [String.length_mk, List.length_take, List.length_drop]
            omega
          · show (((c :: rest).drop 2).take 4).all Char.isDigit = true
            rw [List.all_eq_true]
            intro x hx
            apply hall
            have hdt : ((c :: rest).drop 2).take 4 = ((c :: rest).take 6).drop 2 := by
              rw [List.drop_take]
            rw [hdt] at hx
            exact List.drop_subset 2 ((c :: rest).take 6) hx
        · exact ih _ p htail
      · rw [if_neg h6] at hp
        by_cases h4 : digitsAt 4 (c :: rest)
        · rw [if_pos h4] at hp
          rcases List.mem_cons.mp hp with hhead | htail
          · subst hhead
            simp only [digitsAt, Bool.and_eq_true, decide_eq_true_eq, List.all_eq_true] at h4
            obtain ⟨hlen, hall⟩ := h4
            refine ⟨?_, ?_, ?_⟩
            · show ("" : String).length ≠ 4
              decide
            · show (String.mk ((c :: rest).take 4)).length = 4
              simp only [String.length_mk, List.length_take]
              omega
            · show ((c :: rest).take 4).all Char.isDigit = true
              rw [List.all_eq_true]
              exact hall
          · exact ih _ p htail
        · rw [if_neg h4] at hp
          exact ih _ p hp

/-- Whatever `firstLen4` returns is one of the tuple components, and it has
length 4 (it passed the `len(txt) == 4` test). -/
theorem firstLen4_mem :
    ∀ (ms : List (String × String)) (y : String), firstLen4 ms = some y →
      ∃ p ∈ ms, (y = p.1 ∨ y = p.2) ∧ y.length = 4 := by
  intro ms
  induction ms with
  | nil => intro y hy; exact absurd hy (by simp [firstLen4])
  | cons p rest ih =>
    intro y hy
    obtain ⟨g1, g2⟩ := p
    simp only [firstLen4] at hy
    by_cases h1 : (g1.length == 4) = true
    · rw [if_pos h1] at hy
      injection hy with hy1
      subst hy1
      exact ⟨(g1, g2), List.mem_cons_self _ _, Or.inl rfl, beq_iff_eq.mp h1⟩
    · rw [if_neg h1] at hy
      by_cases h2 : (g2.length == 4) = true
      · rw [if_pos h2] at hy
        injection hy with hy2
        subst hy2
        exact ⟨(g1, g2), List.mem_cons_self _ _, Or.inr rfl, beq_iff_eq.mp h2⟩
      · rw [if_neg h2] at hy
        obtain ⟨q, hq, hyq, hylen⟩ := ih y hy
        exact ⟨q, List.mem_cons_of_mem _ hq, hyq, hylen⟩

/-- When the text does contain a 4-digit run, the `findall` tier yields a
result (so the fallback tier is dead code). -/
theorem firstLen4_isSome_of_hasRun4 :
    ∀ (fuel : Nat) (l : List Char), l.length ≤ fuel → hasRun4 l = true →
      (firstLen4 (findallYearAux fuel l)).isSome = true := by
  intro fuel
  induction fuel with
  | zero =>
    intro l hl hrun
    have : l = [] := List.eq_nil_of_length_eq_zero (Nat.le_zero.mp hl)
    subst this
    exact absurd hrun (by simp [hasRun4])
  | succ n ih =>
    intro l hl hrun
    match l with
    | [] => exact absurd hrun (by simp [hasRun4])
    | c :: rest =>
      simp only [findallYearAux]
      by_cases h6 : digitsAt 6 (c :: rest)
      · rw [if_pos h6]
        have hlen : 6 ≤ (c :: rest).length := by
          simp only [digitsAt, Bool.and_eq_true, decide_eq_true_eq] at h6
          exact h6.1
        simp only [firstLen4, String.length_mk, List.length_take, List.length_drop]
        have e1 : (min 2 (c :: rest).length == 4) = false := by
          simp only [beq_eq_false_iff_ne]
          omega
        have e2 : (min 4 ((c :: rest).length - 2) == 4) = true := by
          simp only [beq_iff_eq]
          omega
        rw [e1, e2]
        simp
      · rw [if_neg h6]
        by_cases h4 : digitsAt 4 (c :: rest)
        · rw [if_pos h4]
          have hlen : 4 ≤ (c :: rest).length := by
            simp only [digitsAt, Bool.and_eq_true, decide_eq_true_eq] at h4
            exact h4.1
          simp only [firstLen4, String.length_mk, List.length_take, String.length_empty]
          have e1 : ((0 : Nat) == 4) = false := by decide
          have e2 : (min 4 (c :: rest).length == 4) = true := by
            simp only [beq_iff_eq]
            omega
          rw [e1, e2]
          simp
        · rw [if_neg h4]
          have hrest : hasRun4 rest = true := by
            simp only [hasRun4, Bool.or_eq_true] at hrun
            rcases hrun with hbad | hok
            · exact absurd hbad h4
            · exact hok
          exact ih rest (by simpa using hl) hrest

/-- A fallback-tier match implies a 4-digit run in the text. -/
theorem hasRun4_of_reSearch_pat1 :
    ∀ (l : List Char) (y : String), reSearch matchPat1At l = some y → hasRun4 l = true := by
  intro l
  induction l with
  | nil => intro y hy; exact absurd hy (by simp [reSearch])
  | cons c rest ih =>
    intro y hy
    simp only [reSearch] at hy
    cases hm : matchPat1At (c :: rest) with
    | some z =>
      unfold matchPat1At at hm
      by_cases h4 : digitsAt 4 (c :: rest)
      · exact hasRun4_of_digitsAt4_drop (c :: rest) 0 h4
      · rw [if_neg h4] at hm
        by_cases hcode : (examCodeAtCI (c :: rest) && digitsAt 4 ((c :: rest).drop 2)) = true
        · have hparts : examCodeAtCI (c :: rest) = true ∧
              digitsAt 4 ((c :: rest).drop 2) = true := by simpa using hcode
          exact hasRun4_of_digitsAt4_drop (c :: rest) 2 hparts.2
        · rw [if_neg hcode] at hm
          exact absurd hm (by simp)
    | none =>
      rw [hm] at hy
      simp only [hasRun4, Bool.or_eq_true]
      exact Or.inr (ih y hy)

/-- A string of exactly four digit characters extracts to itself. -/
theorem get_year_from_txt_four_digits (y : String)
    (hlen : y.data.length = 4) (hdig : y.data.all Char.isDigit = true) :
    get_year_from_txt y = some y := by
  obtain ⟨d⟩ := y
  cases d with
  | nil => simp at hlen
  | cons a d1 =>
    cases d1 with
    | nil => simp at hlen
    | cons b d2 =>
      cases d2 with
      | nil => simp at hlen
      | cons c0 d3 =>
        cases d3 with
        | nil => simp at hlen
        | cons e d4 =>
          cases d4 with
          | cons f d5 => simp only [List.length_cons] at hlen; omega
          | nil =>
            simp only [List.all_cons, List.all_nil, Bool.and_eq_true, Bool.and_true] at hdig
            obtain ⟨ha, hb, hc0, he⟩ := hdig
            have h4 : digitsAt 4 [a, b, c0, e] = true := by
              simp [digitsAt, ha, hb, hc0, he]
            have h6 : digitsAt 6 [a, b, c0, e] = false := by
              simp [digitsAt]
            have hfa : findallYear (String.mk [a, b, c0, e]).data =
                [("", String.mk [a, b, c0, e])] := by
              show findallYearAux 4 [a, b, c0, e] = _
              simp only [findallYearAux]
              rw [if_neg (by simp [h6]), if_pos h4]
              rfl
            unfold get_year_from_txt
            rw [hfa]
            rfl

/-- C8: `extract_year` is total and idempotent — it always returns without
raising (totality is inherent to the embedding), its output fed back in
reproduces itself, and on any input with no run of 4 consecutive digits it
returns `None`. -/
theorem c8_extract_year_total_idempotent :
    (∀ s y : String, get_year_from_txt s = some y → get_year_from_txt y = some y) ∧
    (∀ s : String, hasRun4 s.data = false → get_year_from_txt s = none) := by
  constructor
  · intro s y hs
    have hy : y.length = 4 ∧ y.data.all Char.isDigit = true := by
      unfold get_year_from_txt at hs
      cases hf : firstLen4 (findallYear s.data) with
      | some z =>
        rw [hf] at hs
        have hz : z = y := Option.some.inj hs
        subst hz
        obtain ⟨p, hp, hyp, hylen⟩ := firstLen4_mem _ _ hf
        have hshape := findallYearAux_pairs s.data.length s.data p hp
        rcases hyp with h1 | h2
        · rw [h1] at hylen
          exact absurd hylen hshape.1
        · rw [h2]
          exact ⟨hshape.2.1, hshape.2.2⟩
      | none =>
        rw [hf] at hs
        cases hr : reSearch matchPat1At s.data with
        | none =>
          rw [hr] at hs
          exact absurd hs (by simp)
        | some z =>
          have hrun := hasRun4_of_reSearch_pat1 s.data z hr
          have hsome := firstLen4_isSome_of_hasRun4 s.data.length s.data le_rfl hrun
          have hsome2 : (firstLen4 (findallYear s.data)).isSome = true := hsome
          rw [hf] at hsome2
          exact absurd hsome2 (by simp)
    exact get_year_from_txt_four_digits y hy.1 hy.2
  · intro s h
    unfold get_year_from_txt
    have h1 : findallYear s.data = [] :=
      findallYearAux_nil_of_no_run s.data.length s.data h
    rw [h1, reSearch_pat1_none_of_no_run s.data h]
    rfl

/-- Witness for C8: idempotence at a found year and absence of output on a
digit-free input. -/
theorem c8_extract_year_total_idempotent_witness :
    get_year_from_txt "x2024" = some "2024" ∧
    get_year_from_txt "2024" = some "2024" ∧
    hasRun4 ("abc".data) = false ∧
    get_year_from_txt "abc" = none := by
  refine ⟨by decide,
    c8_extract_year_total_idempotent.1 "x2024" "2024" (by decide),
    by decide,
    c8_extract_year_total_idempotent.2 "abc" (by decide)⟩

/-! ## Link classification: `get_info_from_link` (utils.py lines 44-97) -/

/-- Match of `<literal>([^/]+)/` anchored at the head of `l`: the literal
prefix, then a non-empty greedy run of non-slash characters, then a slash.
(Backtracking the greedy `[^/]+` cannot rescue a failed match, because
every shorter run still ends at a non-slash character, so the maximal run
followed by a slash is the only possibility.) -/
def matchSegSlashAfter (pat : List Char) (l : List Char) : Option String :=
  if pat.isPrefixOf l then
    let rest := l.drop pat.length
    let seg := rest.takeWhile (fun c => c ≠ '/')
    if seg.isEmpty then none
    else if (rest.drop seg.length).isEmpty then none
    else some (String.mk seg)
  else none

/-- Match of `IP|FE|AP` anchored at the head of `l`, case-SENSITIVE:
utils.py line 73 `re.search(r"(IP|FE|AP)", link)` passes no flags
(unlike the year pattern on line 31, which uses `re.IGNORECASE`). -/
def matchExamCodeAt (l : List Char) : Option String :=
  if (['I', 'P'] : List Char).isPrefixOf l then some "IP"
  else if (['F', 'E'] : List Char).isPrefixOf l then some "FE"
  else if (['A', 'P'] : List Char).isPrefixOf l then some "AP"
  else none

/-- Python `str.lower()` on the ASCII segments and codes this program
handles: lower-case each character. -/
def pyLower (s : String) : String := String.mk (s.data.map Char.toLower)

/-- The dictionary built by `get_info_from_link`; a key that is never set
is `none`.  (`link` is always set, line 70.) -/
structure LinkInfo where
  link : String
  type : Option String
  level : Option String
  country : Option String
  year : Option String
deriving Repr, DecidableEq

/-- `get_info_from_link` (utils.py lines 44-97): classify a link via the
three searches `pastexamqa/([^/]+)/`, `(IP|FE|AP)` and
`all-passers-information/([^/]+)/`, and the year extractor.  The question
branch wins over the result branch; a failed branch only logs a warning
and leaves the keys unset. -/
def get_info_from_link (link : String) : LinkInfo :=
  let q0 := reSearch (matchSegSlashAfter ("pastexamqa/".data)) link.data
  let q1 := reSearch matchExamCodeAt link.data
  let country := reSearch (matchSegSlashAfter ("all-passers-information/".data)) link.data
  let year := get_year_from_txt link
  match q0, q1 with
  | some seg, _ =>
    { link := link, type := some "question", level := some (pyLower seg),
      country := country, year := year }
  | none, some code =>
    { link := link, type := some "result", level := some (pyLower code),
      country := country, year := year }
  | none, none =>
    { link := link, type := none, level := none, country := country, year := year }

/-- C6 counterexample: the claim says the exam code is matched
case-insensitively, so that a link containing lowercase "fe2021" is
classified as a result with level "fe".  The code's search
`re.search(r"(IP|FE|AP)", link)` carries no IGNORECASE flag, so on
`https://x/fe2021.zip` — which has no `pastexamqa/<segment>/` pattern and
contains the lowercase token — no type and no level are set at all. -/
theorem c6_counterexample_lowercase_not_classified :
    reSearch (matchSegSlashAfter ("pastexamqa/".data)) ("https://x/fe2021.zip".data) = none ∧
    ¬((get_info_from_link "https://x/fe2021.zip").type = some "result" ∧
      (get_info_from_link "https://x/fe2021.zip").level = some "fe") ∧
    (get_info_from_link "https://x/fe2021.zip").type = none ∧
    (get_info_from_link "https://x/fe2021.zip").level = none := by
  refine ⟨by decide, ?_, by decide, by decide⟩
  intro hcon
  exact absurd hcon.1 (by decide)

/-- C6 amended: for every link without a `pastexamqa/<segment>/` pattern,
`get_info_from_link` sets content type to "result" and sets the level iff
the link contains an UPPERCASE two-letter exam code IP, FE or AP
(case-sensitive substring match); the level is the leftmost such code,
lower-cased. -/
theorem c6_result_classification (link : String)
    (hq : reSearch (matchSegSlashAfter ("pastexamqa/".data)) link.data = none) :
    (((get_info_from_link link).type = some "result" ∧
        ((get_info_from_link link).level).isSome = true) ↔
      ∃ n, n < link.data.length ∧ (matchExamCodeAt (link.data.drop n)).isSome = true) ∧
    (get_info_from_link link).level =
      (reSearch matchExamCodeAt link.data).map pyLower := by
  have hsearch : ∀ (l : List Char),
      (reSearch matchExamCodeAt l).isSome = true ↔
        ∃ n, n < l.length ∧ (matchExamCodeAt (l.drop n)).isSome = true := by
    intro l
    induction l with
    | nil => simp [reSearch]
    | cons c rest ih =>
      simp only [reSearch]
      cases hm : matchExamCodeAt (c :: rest) with
      | some z =>
        simp only [Option.isSome_some, true_iff]
        exact ⟨0, by simp, by simp [hm]⟩
      | none =>
        rw [ih]
        constructor
        · rintro ⟨n, hn, hsome⟩
          exact ⟨n + 1, by simp; omega, hsome⟩
        · rintro ⟨n, hn, hsome⟩
          match n with
          | 0 => rw [List.drop_zero] at hsome; rw [hm] at hsome; exact absurd hsome (by simp)
          | m + 1 =>
            refine ⟨m, ?_, hsome⟩
            simp only [List.length_cons] at hn
            omega
  unfold get_info_from_link
  rw [hq]
  cases hq1 : reSearch matchExamCodeAt link.data with
  | some code =>
    constructor
    · simp only [Option.isSome_some, and_self, true_iff]
      rw [← hsearch]
      simp [hq1]
    · simp
  | none =>
    constructor
    · simp only [iff_def]
      constructor
      · rintro ⟨htype, -⟩
        exact absurd htype (by simp)
      · intro hex
        rw [← hsearch] at hex
        rw [hq1] at hex
        exact absurd hex (by simp)
    · simp

/-- Witness for C6 (amended): an uppercase code is classified. -/
theorem c6_result_classification_witness :
    (get_info_from_link "https://x/FE2021.zip").type = some "result" ∧
    (get_info_from_link "https://x/FE2021.zip").level = some "fe" := by
  have h := c6_result_classification "https://x/FE2021.zip" (by decide)
  refine ⟨(h.1.mpr ⟨10, by decide, by decide⟩).1, ?_⟩
  rw [h.2]
  decide

/-! ## Delivery tracker: `TelegramBot` (telegram_bot.py) -/

/-- Byte-wise lexicographic comparison of text, as SQLite's BINARY
collation (memcmp) orders TEXT values; on the ASCII decimal strings the
program stores, code-point order and byte order coincide. -/
def textLE : List Char → List Char → Bool
  | [], _ => true
  | _ :: _, [] => false
  | x :: xs, y :: ys =>
    if x.toNat < y.toNat then true
    else if y.toNat < x.toNat then false
    else textLE xs ys

/-- The value SQLite actually compares under `ORDER BY f.last_modified`:
the column is declared TEXT (db_handler.py line 35), so the integer
timestamps `add_file` binds are stored as their decimal text, and the
ORDER BY sorts that text lexicographically, not numerically. -/
def lmKey (f : FileRecord) : List Char := (toString f.last_modified).data

/-- The ORDER BY relation of `get_pendings`: ascending text order of the
stored decimal timestamps. -/
def lmLE (a b : FileRecord) : Prop := textLE (lmKey a) (lmKey b) = true

instance : DecidableRel lmLE :=
  fun a b => inferInstanceAs (Decidable (textLE (lmKey a) (lmKey b) = true))

/-- `textLE` is total. -/
theorem textLE_total : ∀ a b : List Char, textLE a b = true ∨ textLE b a = true := by
  intro a
  induction a with
  | nil =>
    intro b
    left
    rfl
  | cons x xs ih =>
    intro b
    cases b with
    | nil =>
      right
      rfl
    | cons y ys =>
      by_cases h1 : x.toNat < y.toNat
      · left
        simp only [textLE]
        rw [if_pos h1]
      · by_cases h2 : y.toNat < x.toNat
        · right
          simp only [textLE]
          rw [if_pos h2]
        · rcases ih ys with h | h
          · left
            simp only [textLE]
            rw [if_neg h1, if_neg h2]
            exact h
          · right
            simp only [textLE]
            rw [if_neg h2, if_neg h1]
            exact h

/-- `textLE` is transitive. -/
theorem textLE_trans : ∀ a b c : List Char,
    textLE a b = true → textLE b c = true → textLE a c = true := by
  intro a
  induction a with
  | nil =>
    intro b c _ _
    rfl
  | cons x xs ih =>
    intro b c hab hbc
    cases b with
    | nil => exact absurd hab (by simp [textLE])
    | cons y ys =>
      cases c with
      | nil => exact absurd hbc (by simp [textLE])
      | cons z zs =>
        simp only [textLE] at hab hbc ⊢
        by_cases h2 : y.toNat < z.toNat
        · rw [if_neg (by omega : ¬z.toNat < y.toNat), if_pos h2] at hbc
          by_cases h1 : x.toNat < y.toNat
          · rw [if_pos (by omega : x.toNat < z.toNat)]
          · by_cases h1x : y.toNat < x.toNat
            · rw [if_neg h1, if_pos h1x] at hab
              exact absurd hab (by simp)
            · rw [if_pos (by omega : x.toNat < z.toNat)]
        · by_cases h2x : z.toNat < y.toNat
          · rw [if_neg h2, if_pos h2x] at hbc
            exact absurd hbc (by simp)
          · rw [if_neg h2, if_neg h2x] at hbc
            by_cases h1 : x.toNat < y.toNat
            · rw [if_pos (by omega : x.toNat < z.toNat)]
            · by_cases h1x : y.toNat < x.toNat
              · rw [if_neg h1, if_pos h1x] at hab
                exact absurd hab (by simp)
              · rw [if_neg h1, if_neg h1x] at hab
                rw [if_neg (by omega : ¬x.toNat < z.toNat),
                  if_neg (by omega : ¬z.toNat < x.toNat)]
                exact ih ys zs hab hbc

instance : IsTotal FileRecord lmLE := ⟨fun a b => textLE_total (lmKey a) (lmKey b)⟩

instance : IsTrans FileRecord lmLE :=
  ⟨fun a b c hab hbc => textLE_trans (lmKey a) (lmKey b) (lmKey c) hab hbc⟩

/-- The rows kept by `get_pendings`' LEFT JOIN / `msg.md5 IS NULL` filter:
files with no `telegram_msgs` row carrying this chat id and the file's
md5.  (A file that joins one or more message rows produces only non-NULL
joined rows, all discarded; a file that joins none produces exactly its
one NULL-extended row.) -/
def pendingFilter (st : Store) (chat_id : String) : List FileRecord :=
  st.files.filter fun f =>
    !(st.msgs.any fun m => m.chat_id == chat_id && m.md5 == f.md5)

/-- `TelegramBot.get_pendings` (telegram_bot.py lines 31-58): undelivered
files for the chat, ordered by `ORDER BY f.last_modified ASC` — which,
the column being TEXT, is the lexicographic order `lmLE` of the decimal
timestamp texts (it agrees with numeric order only between timestamps of
equal decimal width, as real 10-digit epoch seconds are). -/
def get_pendings (st : Store) (chat_id : String) : List FileRecord :=
  List.insertionSort lmLE (pendingFilter st chat_id)

/-- `TelegramBot.add_record` (telegram_bot.py lines 60-72): INSERT appends
a `telegram_msgs` row. -/
def add_record (st : Store) (chat_id md5v : String) : Store :=
  { st with msgs := st.msgs ++ [⟨chat_id, md5v⟩] }

/-- Membership characterisation of `get_pendings`. -/
theorem mem_get_pendings (st : Store) (chat : String) (f : FileRecord) :
    f ∈ get_pendings st chat ↔
      f ∈ st.files ∧ ¬∃ m ∈ st.msgs, m.chat_id = chat ∧ m.md5 = f.md5 := by
  unfold get_pendings
  rw [(List.perm_insertionSort lmLE (pendingFilter st chat)).mem_iff]
  unfold pendingFilter
  rw [List.mem_filter]
  constructor
  · rintro ⟨hf, hcond⟩
    have hany : (st.msgs.any fun m => m.chat_id == chat && m.md5 == f.md5) = false := by
      simpa using hcond
    rw [List.any_eq_false] at hany
    refine ⟨hf, ?_⟩
    rintro ⟨m, hmem, hchat, hmd5⟩
    exact hany m hmem (by simp [hchat, hmd5])
  · rintro ⟨hf, hno⟩
    refine ⟨hf, ?_⟩
    have hany : (st.msgs.any fun m => m.chat_id == chat && m.md5 == f.md5) = false := by
      rw [List.any_eq_false]
      intro m hmem hcond
      simp only [Bool.and_eq_true, beq_iff_eq] at hcond
      exact hno ⟨m, hmem, hcond.1, hcond.2⟩
    simp [hany]

/-- C2 counterexample: the claim asserts output ordered by ascending
(numeric) last_modified for every store state.  The `last_modified`
column is TEXT, so SQLite orders the decimal timestamp texts
lexicographically: on a store holding timestamps 5 and 100 the query
returns them as [100, 5] ("100" < "5" byte-wise), which is not
numerically ascending. -/
theorem c2_counterexample_lexicographic_order :
    ((get_pendings ⟨[⟨"l1", 5, "h1", "a"⟩, ⟨"l2", 100, "h2", "b"⟩], []⟩ "chan").map
        (fun f => f.last_modified) = [100, 5]) ∧
    ¬ List.Sorted (fun a b : FileRecord => a.last_modified ≤ b.last_modified)
        (get_pendings ⟨[⟨"l1", 5, "h1", "a"⟩, ⟨"l2", 100, "h2", "b"⟩], []⟩ "chan") := by
  refine ⟨by decide, ?_⟩
  intro hcon
  have heq : get_pendings ⟨[⟨"l1", 5, "h1", "a"⟩, ⟨"l2", 100, "h2", "b"⟩], []⟩ "chan" =
      [⟨"l2", 100, "h2", "b"⟩, ⟨"l1", 5, "h1", "a"⟩] := by decide
  rw [heq] at hcon
  have hle := List.rel_of_sorted_cons hcon ⟨"l1", 5, "h1", "a"⟩ (List.mem_singleton_self _)
  have hle2 : (100 : Int) ≤ 5 := hle
  omega

/-- C2 (amended): `get_pendings(channel_id)` returns exactly the
FileRecords whose content hash has no DeliveryRecord for that channel,
ordered ascending in SQLite's text order of the stored decimal
timestamps (`lmLE`) — which coincides with ascending numeric
last_modified whenever the timestamps have equal decimal width, as in the
claim's own example: records with last_modified [300, 100, 200] and no
deliveries come out as [100, 200, 300].  After adding a delivery record
for hash `hx` exactly the records with that hash are excluded, and no
others. -/
theorem c2_get_pendings_spec (st : Store) (chat : String) :
    (∀ f, f ∈ get_pendings st chat ↔
        f ∈ st.files ∧ ¬∃ m ∈ st.msgs, m.chat_id = chat ∧ m.md5 = f.md5) ∧
    (get_pendings st chat).Sorted lmLE ∧
    (∀ (hx : String) (f : FileRecord),
        f ∈ get_pendings (add_record st chat hx) chat ↔
          f ∈ get_pendings st chat ∧ f.md5 ≠ hx) ∧
    ((get_pendings
        ⟨[⟨"l1", 300, "h1", "a"⟩, ⟨"l2", 100, "h2", "b"⟩, ⟨"l3", 200, "h3", "c"⟩], []⟩
        "chan").map (fun f => f.last_modified) = [100, 200, 300]) := by
  refine ⟨mem_get_pendings st chat, List.sorted_insertionSort lmLE _, ?_, ?_⟩
  · intro hx f
    rw [mem_get_pendings, mem_get_pendings]
    unfold add_record
    constructor
    · rintro ⟨hf, hno⟩
      refine ⟨⟨hf, ?_⟩, ?_⟩
      · rintro ⟨m, hmem, hrest⟩
        exact hno ⟨m, List.mem_append_left _ hmem, hrest⟩
      · intro heq
        exact hno ⟨⟨chat, hx⟩, List.mem_append_right _ (List.mem_singleton_self _),
          rfl, heq.symm⟩
    · rintro ⟨⟨hf, hno⟩, hne⟩
      refine ⟨hf, ?_⟩
      rintro ⟨m, hmem, hchat, hmd5eq⟩
      rcases List.mem_append.mp hmem with hold | hnew
      · exact hno ⟨m, hold, hchat, hmd5eq⟩
      · rw [List.mem_singleton] at hnew
        subst hnew
        exact hne hmd5eq.symm
  · decide

/-! ## Local paths and message preparation (utils.py, telegram_bot.py) -/

/-- Skip through the first occurrence of `://`, if any (the scheme
separator consumed by `urlparse`). -/
def dropThroughSchemeSep : List Char → Option (List Char)
  | [] => none
  | c :: rest =>
    if ([':', '/', '/'] : List Char).isPrefixOf (c :: rest) then
      some ((c :: rest).drop 3)
    else dropThroughSchemeSep rest

/-- The path component of `urlparse(link)`: after `scheme://netloc` when a
scheme separator is present (the netloc runs to the first slash), else the
whole text; truncated at the query (`?`) and fragment (`#`) markers. -/
def urlparsePath (link : String) : List Char :=
  let core :=
    match dropThroughSchemeSep link.data with
    | some afterSep => afterSep.dropWhile (fun c => c ≠ '/')
    | none => link.data
  (core.takeWhile (fun c => c ≠ '?')).takeWhile (fun c => c ≠ '#')

/-- `Path(urlparse(link).path).name`: the final path segment. -/
def pathName (link : String) : String :=
  String.mk (((urlparsePath link).reverse.takeWhile (fun c => c ≠ '/')).reverse)

/-- `data_dir` (itee_hub/__init__.py line 17): the working data directory,
modelled as its relative path text. -/
def data_dir : String := "data"

/-- `Path` division: join with a slash. -/
def joinPath (a b : String) : String := a ++ "/" ++ b

/-- `get_file_path_from_link_info` (utils.py lines 100-138).  Dictionary
accesses on missing keys raise `KeyError` (modelled as `Except.error`):
`data["year"]` on line 125, `data["type"]` on line 126, `data["country"]`
on line 127 in the result branch.  A well-formed path that does not exist
on disk returns `None` (`Except.ok none`), line 138. -/
def get_file_path_from_link_info (fs : String → Bool) (data : LinkInfo) :
    Except Unit (Option String) :=
  let file_name := pathName data.link
  match data.year with
  | none => .error ()
  | some year =>
    match data.type with
    | none => .error ()
    | some t =>
      if t == "result" then
        match data.country with
        | none => .error ()
        | some ctry =>
          let p := joinPath data_dir (year ++ "/results/" ++ ctry ++ "_" ++ file_name)
          if fs p then .ok (some p) else .ok none
      else if t == "question" then
        let p := joinPath data_dir (year ++ "/questions/" ++ file_name)
        if fs p then .ok (some p) else .ok none
      else
        let p := joinPath data_dir year
        if fs p then .ok (some p) else .ok none

/-- `TelegramBot.prepare_msg` (telegram_bot.py lines 74-121), reduced to
what delivery bookkeeping observes: the file path sent, or the exception
that aborts the run.  Failure modes, in evaluation order: a `KeyError`
raised inside `get_file_path_from_link_info` (line 98); an
`AttributeError` from `file_path.name` when the lookup returned `None`
(line 104); and the caption's own key accesses `link_info["type"]`,
`link_info["level"]`, `link_info["year"]` (lines 100-102), which are
checked again here even though a successful path lookup already implies
they are present.  The caption text itself is pure formatting with no
effect on which records are sent or recorded. -/
def prepare_msg (fs : String → Bool) (record : FileRecord) : Except Unit String :=
  let link_info := get_info_from_link record.link
  match get_file_path_from_link_info fs link_info with
  | .error e => .error e
  | .ok none => .error ()
  | .ok (some p) =>
    match link_info.type, link_info.level, link_info.year with
    | some _, some _, some _ => .ok p
    | _, _, _ => .error ()

/-- Boolean success test for an `Except` value. -/
def exceptIsOk {ε α : Type} (e : Except ε α) : Bool :=
  match e with
  | .ok _ => true
  | .error _ => false

/-- Outcome of `TelegramBot.update`: which pending items had a send
attempted, whether an unhandled `prepare_msg` exception aborted the run
(carrying the item it was raised on), and the final store. -/
structure UpdateResult where
  attempted : List FileRecord
  crashed : Option FileRecord
  store : Store
deriving Repr, DecidableEq

/-- The `for i in pending_files:` loop of `TelegramBot.update`
(telegram_bot.py lines 132-148).  `prepare_msg` runs OUTSIDE the
`try`, so its exception aborts the whole loop; inside the `try`, a
successful `send_document` (modelled by the oracle `sendOk`) is followed
by `add_record`, and a `TelegramBadRequest` is logged and the loop
continues with the next item. -/
def updateLoop (fs : String → Bool) (sendOk : FileRecord → Bool) (chat : String) :
    List FileRecord → Store → UpdateResult
  | [], st => ⟨[], none, st⟩
  | f :: rest, st =>
    match prepare_msg fs f with
    | .error _ => ⟨[], some f, st⟩
    | .ok _ =>
      let st1 := if sendOk f then add_record st chat f.md5 else st
      let r := updateLoop fs sendOk chat rest st1
      ⟨f :: r.attempted, r.crashed, r.store⟩

/-- `TelegramBot.update` (telegram_bot.py lines 123-148): fetch the
pending list once, then run the loop.  (The early return on an empty
pending list coincides with the loop on `[]`.) -/
def update (fs : String → Bool) (sendOk : FileRecord → Bool)
    (st : Store) (chat : String) : UpdateResult :=
  updateLoop fs sendOk chat (get_pendings st chat) st

/-- The loop when every item's `prepare_msg` succeeds: all items are
attempted, nothing crashes, the file table is untouched, and exactly the
successful sends are recorded, in order. -/
theorem updateLoop_all_prepared (fs : String → Bool) (sendOk : FileRecord → Bool)
    (chat : String) :
    ∀ (l : List FileRecord) (st : Store),
      (∀ f ∈ l, exceptIsOk (prepare_msg fs f) = true) →
      updateLoop fs sendOk chat l st =
        ⟨l, none,
          ⟨st.files, st.msgs ++ (l.filter sendOk).map fun f => ⟨chat, f.md5⟩⟩⟩ := by
  intro l
  induction l with
  | nil =>
    intro st _
    simp [updateLoop]
  | cons f rest ih =>
    intro st hok
    have hf := hok f (List.mem_cons_self f rest)
    simp only [updateLoop]
    cases hp : prepare_msg fs f with
    | error e =>
      rw [hp] at hf
      exact absurd hf (by simp [exceptIsOk])
    | ok p =>
      have hrest : ∀ g ∈ rest, exceptIsOk (prepare_msg fs g) = true :=
        fun g hg => hok g (List.mem_cons_of_mem f hg)
      by_cases hs : sendOk f = true
      · rw [if_pos hs, ih (add_record st chat f.md5) hrest]
        simp only [add_record, List.filter_cons, hs, if_pos]
        simp [List.append_assoc]
      · rw [if_neg hs, ih st hrest]
        simp only [List.filter_cons]
        rw [Bool.not_eq_true] at hs
        simp [hs]

/-- C3: when every pending item's message preparation succeeds, a send
failure on one item is absorbed: no DeliveryRecord is appended for it (it
stays pending for the next run), every subsequent pending item in the
batch is still attempted, and each successful send is recorded — the
final delivery table is the old one plus exactly the successfully sent
items' records, in order. -/
theorem c3_update_send_failure_isolated (fs : String → Bool)
    (sendOk : FileRecord → Bool) (st : Store) (chat : String)
    (hprep : ∀ f ∈ get_pendings st chat, exceptIsOk (prepare_msg fs f) = true) :
    (update fs sendOk st chat).crashed = none ∧
    (update fs sendOk st chat).attempted = get_pendings st chat ∧
    (update fs sendOk st chat).store.files = st.files ∧
    (update fs sendOk st chat).store.msgs =
      st.msgs ++ ((get_pendings st chat).filter sendOk).map fun f => ⟨chat, f.md5⟩ := by
  unfold update
  rw [updateLoop_all_prepared fs sendOk chat (get_pendings st chat) st hprep]
  exact ⟨rfl, rfl, rfl, rfl⟩

/-- C3 witness filesystem: the two question files exist locally. -/
def c3fsW : String → Bool := fun p =>
  p == "data/2021/questions/fe2021a.pdf" || p == "data/2020/questions/ap2020f.pdf"

/-- C3 witness send oracle: the first pending item's send raises
`TelegramBadRequest`, the second succeeds. -/
def c3sendW : FileRecord → Bool := fun f => f.md5 == "h2"

/-- C3 witness store: two downloaded, undelivered question files. -/
def c3stW : Store :=
  ⟨[⟨"https://x/pastexamqa/fe/2021apr/fe2021a.pdf", 100, "h1", "2021-04"⟩,
    ⟨"https://x/pastexamqa/ap/2020oct/ap2020f.pdf", 200, "h2", "2020-10"⟩], []⟩

/-- Witness for C3: with a failing first send and a succeeding second one,
both items are attempted, nothing crashes, and only the second is
recorded. -/
theorem c3_update_send_failure_isolated_witness :
    (update c3fsW c3sendW c3stW "chan").crashed = none ∧
    (update c3fsW c3sendW c3stW "chan").attempted = get_pendings c3stW "chan" ∧
    (update c3fsW c3sendW c3stW "chan").store.files = c3stW.files ∧
    (update c3fsW c3sendW c3stW "chan").store.msgs =
      c3stW.msgs ++
        ((get_pendings c3stW "chan").filter c3sendW).map fun f => ⟨"chan", f.md5⟩ :=
  c3_update_send_failure_isolated c3fsW c3sendW c3stW "chan" (by decide)

/-- The loop when the items before `f` prepare fine and `f`'s preparation
raises: the run aborts at `f` with only the earlier items attempted. -/
theorem updateLoop_crashes (fs : String → Bool) (sendOk : FileRecord → Bool)
    (chat : String) (f : FileRecord) (l2 : List FileRecord)
    (hfail : exceptIsOk (prepare_msg fs f) = false) :
    ∀ (l1 : List FileRecord) (st : Store),
      (∀ g ∈ l1, exceptIsOk (prepare_msg fs g) = true) →
      (updateLoop fs sendOk chat (l1 ++ f :: l2) st).crashed = some f ∧
      (updateLoop fs sendOk chat (l1 ++ f :: l2) st).attempted = l1 := by
  intro l1
  induction l1 with
  | nil =>
    intro st _
    simp only [List.nil_append, updateLoop]
    cases hp : prepare_msg fs f with
    | error e =>
      exact ⟨rfl, rfl⟩
    | ok p =>
      rw [hp] at hfail
      exact absurd hfail (by simp [exceptIsOk])
  | cons g rest ih =>
    intro st hok
    have hg := hok g (List.mem_cons_self g rest)
    simp only [List.cons_append, updateLoop]
    cases hp : prepare_msg fs g with
    | error e =>
      rw [hp] at hg
      exact absurd hg (by simp [exceptIsOk])
    | ok p =>
      have hrest : ∀ x ∈ rest, exceptIsOk (prepare_msg fs x) = true :=
        fun x hx => hok x (List.mem_cons_of_mem g hx)
      obtain ⟨h1, h2⟩ :=
        ih (if sendOk g then add_record st chat g.md5 else st) hrest
      exact ⟨h1, congrArg (List.cons g) h2⟩

/-- C10: when a pending record's message preparation fails — its LinkInfo
lacks the type, level or year key, or its local file does not exist so the
path lookup returns `None` — `TelegramBot.update` raises an unhandled
exception (`prepare_msg` runs outside the `try` that guards sending),
terminating the run at that record and leaving every later pending item
unattempted. -/
theorem c10_update_unhandled_prepare_exception (fs : String → Bool)
    (sendOk : FileRecord → Bool) (st : Store) (chat : String)
    (l1 l2 : List FileRecord) (f : FileRecord)
    (hsplit : get_pendings st chat = l1 ++ f :: l2)
    (hok : ∀ g ∈ l1, exceptIsOk (prepare_msg fs g) = true)
    (hfail : exceptIsOk (prepare_msg fs f) = false) :
    (update fs sendOk st chat).crashed = some f ∧
    (update fs sendOk st chat).attempted = l1 := by
  unfold update
  rw [hsplit]
  exact updateLoop_crashes fs sendOk chat f l2 hfail l1 st hok

/-- C10 witness filesystem: only the second item's file exists. -/
def c10fsW : String → Bool := fun p => p == "data/2020/questions/ap2020f.pdf"

/-- C10 witness store: the first pending record's link yields no content
type (no `pastexamqa/<segment>/` pattern, no uppercase exam code), so its
preparation raises `KeyError`; the second record is perfectly sendable. -/
def c10stW : Store :=
  ⟨[⟨"https://x/stuff2021.zip", 100, "h1", "2021-04"⟩,
    ⟨"https://x/pastexamqa/ap/2020oct/ap2020f.pdf", 200, "h2", "2020-10"⟩], []⟩

/-- Witness for C10: the run crashes on the first pending record and the
sendable second record is never attempted. -/
theorem c10_update_unhandled_prepare_exception_witness :
    (update c10fsW (fun _ => true) c10stW "chan").crashed =
      some ⟨"https://x/stuff2021.zip", 100, "h1", "2021-04"⟩ ∧
    (update c10fsW (fun _ => true) c10stW "chan").attempted = [] :=
  c10_update_unhandled_prepare_exception c10fsW (fun _ => true) c10stW "chan" []
    [⟨"https://x/pastexamqa/ap/2020oct/ap2020f.pdf", 200, "h2", "2020-10"⟩]
    ⟨"https://x/stuff2021.zip", 100, "h1", "2021-04"⟩
    (by decide) (by decide) (by decide)

/-! ## Downloader: `download` (utils.py lines 184-246) -/

/-- Outcome of one `download` call: the file table afterwards, and how
many GET (full content) and HEAD (metadata only) requests were issued. -/
structure DownloadResult where
  files : List FileRecord
  getRequests : Nat
  headRequests : Nat
deriving Repr, DecidableEq

/-- The local file name computed on utils.py lines 213-215:
`Path(urlparse(link).path).name`, optionally prefixed by
`file_name_suffix + "_"`. -/
def downloadFileName (link : String) (file_name_suffix : Option String) : String :=
  match file_name_suffix with
  | some sfx => sfx ++ "_" ++ pathName link
  | none => pathName link

/-- `download` (utils.py lines 184-246).  The network is modelled by the
response oracles `headLM` (the parsed `last-modified` header of the HEAD
response inside `is_file_changed`), `getLM` (the same header on the GET
response) and `getHash` (the md5 of the fetched content); the filesystem
by `fs`.  Flow: build the local file name (optionally prefixed), return
immediately if the file exists and `refresh_file` is false; with
`refresh_file` true consult `is_file_changed` (one HEAD) and return if
unchanged; otherwise GET the content, write it to disk, and append a
FileRecord. -/
def download (fs : String → Bool) (headLM : String → Int) (getLM : String → Int)
    (getHash : String → String) (files : List FileRecord)
    (path_suffix link year_month : String)
    (file_name_suffix : Option String := none) (refresh_file : Bool := false) :
    DownloadResult :=
  let file_name := downloadFileName link file_name_suffix
  let file_path := joinPath (joinPath data_dir path_suffix) file_name
  let fetched : DownloadResult :=
    ⟨add_file files link (getLM link) year_month (getHash link), 1, 0⟩
  if fs file_path then
    if !refresh_file then ⟨files, 0, 0⟩
    else if is_file_changed files link (headLM link) then
      ⟨fetched.files, fetched.getRequests, 1⟩
    else ⟨files, 0, 1⟩
  else fetched

/-- C5: when the computed local file already exists and `refresh` is
false, `download` returns early: no GET, no HEAD, and the stored
file-record list is exactly what it was before. -/
theorem c5_download_skips_existing (fs : String → Bool)
    (headLM getLM : String → Int) (getHash : String → String)
    (files : List FileRecord) (path_suffix link year_month : String)
    (sfx : Option String)
    (hexists : fs (joinPath (joinPath data_dir path_suffix)
      (downloadFileName link sfx)) = true) :
    download fs headLM getLM getHash files path_suffix link year_month sfx false =
      ⟨files, 0, 0⟩ := by
  simp only [download]
  rw [if_pos hexists]
  rfl

/-- Witness for C5: a concrete store and an existing local file. -/
theorem c5_download_skips_existing_witness :
    download (fun _ => true) (fun _ => 7) (fun _ => 7) (fun _ => "h")
        [⟨"https://x/a.pdf", 5, "h", "2020-04"⟩] "2020/questions" "https://x/a.pdf"
        "2020-04" none false =
      ⟨[⟨"https://x/a.pdf", 5, "h", "2020-04"⟩], 0, 0⟩ :=
  c5_download_skips_existing (fun _ => true) (fun _ => 7) (fun _ => 7) (fun _ => "h")
    [⟨"https://x/a.pdf", 5, "h", "2020-04"⟩] "2020/questions" "https://x/a.pdf"
    "2020-04" none (by decide)

/-- Witness for C2: the undelivered record is reported pending, and the
documented [300, 100, 200] store delivers in order [100, 200, 300]. -/
theorem c2_get_pendings_spec_witness :
    (⟨"l2", 100, "h2", "b"⟩ : FileRecord) ∈
      get_pendings ⟨[⟨"l1", 300, "h1", "a"⟩, ⟨"l2", 100, "h2", "b"⟩,
        ⟨"l3", 200, "h3", "c"⟩], []⟩ "chan" ∧
    ((get_pendings ⟨[⟨"l1", 300, "h1", "a"⟩, ⟨"l2", 100, "h2", "b"⟩,
        ⟨"l3", 200, "h3", "c"⟩], []⟩ "chan").map (fun f => f.last_modified) =
      [100, 200, 300]) := by
  have h := c2_get_pendings_spec
    ⟨[⟨"l1", 300, "h1", "a"⟩, ⟨"l2", 100, "h2", "b"⟩, ⟨"l3", 200, "h3", "c"⟩], []⟩ "chan"
  refine ⟨(h.1 ⟨"l2", 100, "h2", "b"⟩).mpr ⟨by decide, ?_⟩, h.2.2.2⟩
  rintro ⟨m, hm, -⟩
  exact absurd hm (List.not_mem_nil m)

/-- Witness for C9: a record whose link and timestamp both match is
returned when the hash argument is omitted. -/
theorem c9_get_file_null_hash_witness :
    ∃ l, get_file [⟨"a", 5, "h1", "ym"⟩] "a" 5 none = some l ∧
      (⟨"a", 5, "h1", "ym"⟩ : FileRecord) ∈ l :=
  (c9_get_file_null_hash [⟨"a", 5, "h1", "ym"⟩] "a" 5 ⟨"a", 5, "h1", "ym"⟩).mpr
    ⟨by decide, rfl, rfl⟩
